import Mathlib

/-!
Verification development for the composition-extraction pipeline
(src/4.umap/extract_compositions.py).  The Python operations are shallowly
embedded as executable Lean definitions: Python strings become `String`
(lists of characters), the mutable pipeline state becomes explicit data
passed between pure functions, fallible operations (KeyError, IndexError,
`exit(1)`) become `Except`, and floating-point p-values become `ℚ`
(the script only ever compares them, never computes with them).
-/

namespace Extract

/-! ## Identifier canonicalization (lines 129 and 191 of the script)

`id_ = name.rsplit(".", 1)[0] if name.startswith("BGC") else name` -/

/-- Embedding of the Python test `s.startswith(pre)` on character lists. -/
def pyStartsWith (pre s : List Char) : Bool :=
  decide (s.take pre.length = pre)

/-- Embedding of `s.rsplit(".", 1)[0]`: everything before the last dot, or
the whole string when it has no dot. -/
def pyRsplitHead (s : List Char) : List Char :=
  if '.' ∈ s then ((s.reverse.dropWhile (fun c => decide (c ≠ '.'))).drop 1).reverse else s

/-- The canonicalization rule on character lists: identifiers beginning with
`BGC` lose their last dot-delimited segment, all others pass verbatim. -/
def canonChars (s : List Char) : List Char :=
  if pyStartsWith ['B', 'G', 'C'] s then pyRsplitHead s else s

/-- The identifier canonicalization rule of the script. -/
def canon (s : String) : String :=
  String.mk (canonChars s.data)

/-! ## Entity model (gecco.model as used by the script) -/

/-- A protein-domain hit: profile name and significance score.  The script
only ever compares p-values, so they are embedded as exact rationals. -/
structure Domain where
  name : String
  pvalue : ℚ
deriving DecidableEq

/-- A protein: identifier, amino-acid sequence, ordered domain hits. -/
structure Protein where
  id : String
  seq : String
  domains : List Domain
deriving DecidableEq

/-- Strand of a gene; the script only ever constructs `Coding`. -/
inductive Strand where
  | Coding
deriving DecidableEq

/-- A gene: the `source=record` back-reference of the script is embedded as
the source record's name, which is all the script ever reads from it
(`g.source.name`, lines 186 and 190). -/
structure Gene where
  sourceName : String
  start : Nat
  stop : Nat
  protein : Protein
  strand : Strand
deriving DecidableEq

/-- A cluster: identifier plus the genes it owns. -/
structure Cluster where
  id : String
  genes : List Gene
deriving DecidableEq

/-! ## Raw records (gb_io as consumed by the script) -/

/-- A feature of a flat-file record: its type string, its qualifier
dictionary (`cds.qualifiers.to_dict()`, a map from qualifier key to a list
of values), and its location. -/
structure Feature where
  type : String
  qualifiers : List (String × List String)
  locStart : Nat
  locEnd : Nat
deriving DecidableEq

/-- A raw record: name plus features. -/
structure Record where
  name : String
  features : List Feature
deriving DecidableEq

/-- The ways the ingestion code can abort: the explicit `exit(1)` on a
feature with no usable identifier qualifier (line 116), an uncaught
`KeyError` from a missing dictionary key, or an uncaught `IndexError` from
indexing an empty qualifier value list. -/
inductive PyErr where
  | exitOne (offending : Feature)
  | keyError (key : String)
  | indexError
deriving DecidableEq

/-- Embedding of Python `l[0]`: first element or an `IndexError`. -/
def pyFirst (l : List String) : Except PyErr String :=
  match l with
  | [] => .error .indexError
  | x :: _ => .ok x

/-- Embedding of `record` feature filtering: the loops only visit features
whose type is `"CDS"` (lines 107 and 137). -/
def cdsFeatures (rec : Record) : List Feature :=
  rec.features.filter (fun f => decide (f.type = "CDS"))

/-- The gene-identifier fallback chain of `region_to_cluster`
(lines 109-116): `locus_tag`, else `protein_id`, else `gene`, else
`exit(1)` reporting the offending feature. -/
def geneIdOfFeature (cds : Feature) : Except PyErr String :=
  match cds.qualifiers.lookup "locus_tag" with
  | some v => pyFirst v
  | none =>
    match cds.qualifiers.lookup "protein_id" with
    | some v => pyFirst v
    | none =>
      match cds.qualifiers.lookup "gene" with
      | some v => pyFirst v
      | none => .error (.exitOne cds)

/-- The translation-qualifier access (lines 117 and 139): a
missing key is an uncaught `KeyError`. -/
def translationOf (cds : Feature) : Except PyErr String :=
  match cds.qualifiers.lookup "translation" with
  | some v => pyFirst v
  | none => .error (.keyError "translation")

/-- One iteration of the `region_to_cluster` loop body (lines 108-120). -/
def regionGene (rec : Record) (cds : Feature) : Except PyErr Gene := do
  let id_ ← geneIdOfFeature cds
  let seq ← translationOf cds
  return { sourceName := rec.name, start := cds.locStart, stop := cds.locEnd,
           protein := { id := id_, seq := seq, domains := [] }, strand := .Coding }

/-- One iteration of the `record_to_cluster` loop body (lines 138-141): the
protein identifier is the record name; no identifier fallback chain runs. -/
def recordGene (rec : Record) (cds : Feature) : Except PyErr Gene := do
  let seq ← translationOf cds
  return { sourceName := rec.name, start := cds.locStart, stop := cds.locEnd,
           protein := { id := rec.name, seq := seq, domains := [] }, strand := .Coding }

/-- Run a fallible step over a list, stopping at the first failure, like a
Python `for` loop whose body may raise. -/
def exceptMap (f : α → Except PyErr β) : List α → Except PyErr (List β)
  | [] => .ok []
  | a :: as => do
    let b ← f a
    let bs ← exceptMap f as
    return b :: bs

/-- Embedding of `region_to_cluster(record, bgc_id)` (lines 105-121). -/
def region_to_cluster (rec : Record) (bgcId : String) : Except PyErr Cluster := do
  let genes ← exceptMap (regionGene rec) (cdsFeatures rec)
  return { id := bgcId, genes := genes }

/-- Embedding of `record_to_cluster(record)` (lines 135-142). -/
def record_to_cluster (rec : Record) : Except PyErr Cluster := do
  let genes ← exceptMap (recordGene rec) (cdsFeatures rec)
  return { id := rec.name, genes := genes }

/-! ## Ingestion (lines 123-131 and 144-152) -/

/-- The antiSMASH ingestion loop (lines 128-131): canonicalize the record
name, keep the record iff the canonical identifier is a representative,
and normalize it keyed by the canonical identifier. -/
def ingestAntismash (reps : List String) : List Record → Except PyErr (List Cluster)
  | [] => .ok []
  | r :: rs =>
    if canon r.name ∈ reps then do
      let c ← region_to_cluster r (canon r.name)
      let cs ← ingestAntismash reps rs
      return c :: cs
    else ingestAntismash reps rs

/-- The GECCO ingestion loop (lines 150-152): keep the record iff its raw
name is a representative, and normalize it keyed by the raw name. -/
def ingestGecco (reps : List String) : List Record → Except PyErr (List Cluster)
  | [] => .ok []
  | r :: rs =>
    if r.name ∈ reps then do
      let c ← record_to_cluster r
      let cs ← ingestGecco reps rs
      return c :: cs
    else ingestGecco reps rs

/-- Embedding of `clusters = gecco_clusters + antismash_clusters` (line 168). -/
def mergeClusters (geccoCs asCs : List Cluster) : List Cluster :=
  geccoCs ++ asCs

/-! ## Significance filter (lines 179-183) -/

/-- The fixed significance threshold of line 181, `1e-5`, as an exact
rational (the script only compares p-values against it). -/
def pvalueThreshold : ℚ := 1 / 100000

/-- Embedding of `protein.with_domains(ds)`: replace the domain list wholesale. -/
def with_domains (p : Protein) (ds : List Domain) : Protein :=
  { p with domains := ds }

/-- Embedding of `gene.with_protein(p)`: replace the protein wholesale. -/
def with_protein (g : Gene) (pr : Protein) : Gene :=
  { g with protein := pr }

/-- The per-gene body of the filter comprehension (line 181). -/
def filterGene (g : Gene) : Gene :=
  with_protein g (with_domains g.protein
    (g.protein.domains.filter (fun d => decide (d.pvalue < pvalueThreshold))))

/-- The filter comprehension over the flat gene list (lines 180-183). -/
def filterGenes (gs : List Gene) : List Gene :=
  gs.map filterGene

/-! ## Regrouping (lines 185-193) -/

/-- Embedding of the gene flattening of line 173, restated over record-level inputs: each pair is a source
record name together with the genes ingestion produced from that record. -/
def flattenGenes (rs : List (String × List Gene)) : List Gene :=
  rs.flatMap (fun p => p.2)

/-- Embedding of the gene sort by source record name (line 186). -/
def sortGenesBySource (gs : List Gene) : List Gene :=
  gs.mergeSort (fun a b => decide (a.sourceName ≤ b.sourceName))

/-- Embedding of `itertools.groupby(l, key)`: maximal contiguous runs of
elements sharing a key, each tagged with that key. -/
def groupRuns {α κ : Type} [DecidableEq κ] (key : α → κ) : List α → List (κ × List α)
  | [] => []
  | a :: as =>
    match groupRuns key as with
    | [] => [(key a, [a])]
    | (k, run) :: rest =>
      if key a = k then (key a, a :: run) :: rest
      else (key a, [a]) :: (k, run) :: rest

/-- The regrouping loop (lines 188-193): group the sorted gene list by
source record name and key each resulting cluster by the canonicalized
group key. -/
def regroup (gs : List Gene) : List Cluster :=
  (groupRuns (fun g => g.sourceName) (sortGenesBySource gs)).map
    (fun p => { id := canon p.1, genes := p.2 })

/-! ## Final sort by GCF identifier (lines 198-199) -/

/-- The label-table lookup of a cluster identifier as a total function (used only where
the lookup is known to succeed). -/
def gcfKey (idx : List (String × String)) (c : Cluster) : String :=
  (idx.lookup c.id).getD ""

/-- Embedding of the final cluster sort of line 199: computing the key of a cluster whose identifier is missing
from the label table raises an uncaught `KeyError`, which aborts the run
before anything is written; otherwise the list is sorted by the mapped
GCF identifier. -/
def sortClustersByGcf (idx : List (String × String)) (cs : List Cluster) :
    Except PyErr (List Cluster) :=
  match cs.find? (fun c => (idx.lookup c.id).isNone) with
  | some c => .error (.keyError c.id)
  | none => .ok (cs.mergeSort (fun a b => decide (gcfKey idx a ≤ gcfKey idx b)))

/-! ## Finalization and serialization order (lines 204-219)

The finalize block is a fixed sequence of effectful steps: create the
output directory, stream `labels.tsv`, stream `domains.tsv`, build the
in-memory composition matrix, save `compositions.npz`.  A run that fails
at a step keeps every file already written (the script has no cleanup
handler); the steps after the failing one never execute. -/

/-- The five effectful steps of the finalize block, in source order. -/
inductive FinalizeStep where
  | makeOutputDir
  | writeLabels
  | writeDomains
  | buildCompMatrix
  | saveNpz
deriving DecidableEq

/-- The finalize block's steps in the order the script performs them
(lines 204, 206-211, 213-216, 218, 219). -/
def finalizeSteps : List FinalizeStep :=
  [.makeOutputDir, .writeLabels, .writeDomains, .buildCompMatrix, .saveNpz]

/-- The output files each step writes. -/
def filesWrittenBy : FinalizeStep → List String
  | .writeLabels => ["labels.tsv"]
  | .writeDomains => ["domains.tsv"]
  | .saveNpz => ["compositions.npz"]
  | _ => []

/-- Run a list of finalize steps under a failure scenario: execution stops
at the first failing step; files written by the preceding steps remain. -/
def runFinalizeAux (failsAt : FinalizeStep → Bool) :
    List FinalizeStep → List String × Bool
  | [] => ([], true)
  | s :: rest =>
    if failsAt s then ([], false)
    else
      let r := runFinalizeAux failsAt rest
      (filesWrittenBy s ++ r.1, r.2)

/-- The finalize block under a failure scenario: the files left in the
output directory and whether the run completed. -/
def runFinalize (failsAt : FinalizeStep → Bool) : List String × Bool :=
  runFinalizeAux failsAt finalizeSteps

/-! ## labels.tsv, domains.tsv and the composition matrix (lines 202-219) -/

/-- One `labels.tsv` record as written by lines 207-211: cluster
identifier, a tab, the group identifier from the label table, a
newline. -/
def labelsEntry (idx : List (String × String)) (c : Cluster) : String :=
  c.id ++ "\t" ++ (idx.lookup c.id).getD "" ++ "\n"

/-- The `labels.tsv` records, one per final cluster, in list order. -/
def labelsLines (idx : List (String × String)) (cs : List Cluster) : List String :=
  cs.map (labelsEntry idx)

/-- Modelled from the spec: `Cluster.domain_composition` is code of the
external gecco library, not of this repository; per the spec the
composition vector of a cluster over a vocabulary has one entry per
vocabulary name, counting occurrences of that domain name across all
genes of the cluster, with an explicit zero when absent. -/
def domain_composition (c : Cluster) (vocab : List String) : List Nat :=
  vocab.map (fun n =>
    ((c.genes.flatMap (fun g => g.protein.domains)).filter
      (fun d => decide (d.name = n))).length)

/-- The composition matrix of line 218: one row per final cluster, in list
order. -/
def compMatrix (vocab : List String) (cs : List Cluster) : List (List Nat) :=
  cs.map (fun c => domain_composition c vocab)

/-- Split a character list into tab-separated fields. -/
def tabSplit : List Char → List (List Char)
  | [] => [[]]
  | c :: rest =>
    match tabSplit rest with
    | [] => [[]]
    | f :: fs => if c = '\t' then [] :: f :: fs else (c :: f) :: fs

/-! ## Domain vocabulary (lines 201-202 and 213-216) -/

/-- The multiset of domain names over all genes of all final clusters. -/
def domainNames (cs : List Cluster) : List String :=
  cs.flatMap (fun c => c.genes.flatMap (fun g => g.protein.domains.map (fun d => d.name)))

/-- Embedding of the vocabulary construction of line 202, sorted set of domain names: the
deduplicated, lexicographically sorted domain vocabulary. -/
def all_possible (cs : List Cluster) : List String :=
  (domainNames cs).dedup.mergeSort (fun a b => decide (a ≤ b))

/-- The `domains.tsv` lines (lines 213-216): one vocabulary name plus a
newline each, in vocabulary order. -/
def domainsLines (cs : List Cluster) : List String :=
  (all_possible cs).map (fun d => d ++ "\n")

/-- A concrete one-domain gene used to instantiate hypotheses. -/
def geneA : Gene :=
  { sourceName := "A", start := 0, stop := 1,
    protein := { id := "p", seq := "M",
                 domains := [{ name := "PF1", pvalue := 0 }] },
    strand := .Coding }

theorem pyRsplitHead_length_lt {s : List Char} (h : '.' ∈ s) :
    (pyRsplitHead s).length < s.length := by
  have hmem : '.' ∈ s.reverse := by simpa using h
  have hne : s.reverse.dropWhile (fun c => decide (c ≠ '.')) ≠ [] := by
    intro hnil
    have := List.dropWhile_eq_nil_iff.mp hnil '.' hmem
    simp at this
  have hle : (s.reverse.dropWhile (fun c => decide (c ≠ '.'))).length ≤ s.length := by
    have := (List.dropWhile_sublist (l := s.reverse)
      (fun c => decide (c ≠ '.'))).length_le
    simpa using this
  have hpos : 0 < (s.reverse.dropWhile (fun c => decide (c ≠ '.'))).length :=
    List.length_pos.mpr hne
  simp only [pyRsplitHead, if_pos h, List.length_reverse, List.length_drop]
  omega

theorem canonChars_of_fix {s : List Char}
    (h : pyStartsWith ['B', 'G', 'C'] s = false ∨ '.' ∉ s) :
    canonChars s = s := by
  rcases h with h | h
  · simp [canonChars, h]
  · unfold canonChars pyRsplitHead
    split <;> simp [h]

/-- C1, counterexample: the canonicalization rule is not idempotent on the
identifier `"BGC0001.1.region001"`; one application gives `"BGC0001.1"`,
a second one truncates further to `"BGC0001"`. -/
theorem canon_not_idempotent :
    canon (canon "BGC0001.1.region001") ≠ canon "BGC0001.1.region001" := by
  decide

/-- C1 (amended): applying the canonicalization rule twice agrees with
applying it once exactly when the once-canonicalized identifier is a fixed
point of the rule, i.e. when it does not start with `BGC` or contains no
dot.  In particular idempotence holds for every identifier with at most one
dot, but an identifier starting with `BGC` that still has a dot after one
truncation is truncated further by the second application. -/
theorem canon_idempotent_iff (x : String) :
    canon (canon x) = canon x ↔
      (pyStartsWith ['B', 'G', 'C'] (canon x).data = false ∨ '.' ∉ (canon x).data) := by
  constructor
  · intro h
    by_contra hcon
    push_neg at hcon
    obtain ⟨hbgc, hdot⟩ := hcon
    have hbgc' : pyStartsWith ['B', 'G', 'C'] (canon x).data = true := by
      revert hbgc; cases pyStartsWith ['B', 'G', 'C'] (canon x).data <;> simp
    have hlen : (canonChars (canon x).data).length < (canon x).data.length := by
      simpa [canonChars, hbgc'] using pyRsplitHead_length_lt hdot
    have hdata : (canon (canon x)).data = (canon x).data := by rw [h]
    have hlen2 : (canonChars (canon x).data).length = (canon x).data.length :=
      congrArg List.length hdata
    omega
  · intro h
    show String.mk (canonChars (canon x).data) = canon x
    rw [canonChars_of_fix h]

/-- C9, counterexample: a coding feature with none of the three identifier
qualifiers does not abort the run when it is processed by the GECCO
normalizer `record_to_cluster`; the gene is built with the record name as
its protein identifier.  The fallback-chain/fatal-abort contract holds only
in the antiSMASH normalizer `region_to_cluster`. -/
theorem record_to_cluster_ignores_id_qualifiers :
    record_to_cluster
      { name := "recX",
        features := [{ type := "CDS", qualifiers := [("translation", ["MKT"])],
                       locStart := 0, locEnd := 9 }] } =
      .ok { id := "recX",
            genes := [{ sourceName := "recX", start := 0, stop := 9,
                        protein := { id := "recX", seq := "MKT", domains := [] },
                        strand := .Coding }] } := by
  rfl

/-- C9 (amended): in the antiSMASH normalizer, the gene identifier comes
from the `locus_tag` qualifier if present, else `protein_id`, else `gene`,
and the run aborts (`exit(1)`, reporting the offending feature) when none
of the three is present; a gene the antiSMASH normalizer builds carries
exactly the identifier the chain produced.  The GECCO normalizer instead
always uses the record name as the protein identifier and has no such
fatal condition. -/
theorem gene_id_fallback_chain (cds : Feature) :
    (∀ v, cds.qualifiers.lookup "locus_tag" = some v →
      geneIdOfFeature cds = pyFirst v) ∧
    (cds.qualifiers.lookup "locus_tag" = none →
      ∀ v, cds.qualifiers.lookup "protein_id" = some v →
        geneIdOfFeature cds = pyFirst v) ∧
    (cds.qualifiers.lookup "locus_tag" = none →
      cds.qualifiers.lookup "protein_id" = none →
        ∀ v, cds.qualifiers.lookup "gene" = some v →
          geneIdOfFeature cds = pyFirst v) ∧
    (cds.qualifiers.lookup "locus_tag" = none →
      cds.qualifiers.lookup "protein_id" = none →
        cds.qualifiers.lookup "gene" = none →
          geneIdOfFeature cds = .error (.exitOne cds)) ∧
    (∀ rec g, regionGene rec cds = .ok g →
      geneIdOfFeature cds = .ok g.protein.id) ∧
    (∀ rec cds' g, recordGene rec cds' = .ok g → g.protein.id = rec.name) := by
  refine ⟨?_, ?_, ?_, ?_, ?_, ?_⟩
  · intro v hv; simp [geneIdOfFeature, hv]
  · intro h0 v hv; simp [geneIdOfFeature, h0, hv]
  · intro h0 h1 v hv; simp [geneIdOfFeature, h0, h1, hv]
  · intro h0 h1 h2; simp [geneIdOfFeature, h0, h1, h2]
  · intro rec g hg
    unfold regionGene at hg
    cases hid : geneIdOfFeature cds with
    | error e => simp [hid, Bind.bind, Except.bind] at hg
    | ok i =>
      cases htr : translationOf cds with
      | error e => simp [hid, htr, Bind.bind, Except.bind] at hg
      | ok s =>
        simp only [hid, htr, Bind.bind, Except.bind, pure, Except.pure, Except.ok.injEq] at hg
        rw [← hg]
  · intro rec cds' g hg
    unfold recordGene at hg
    cases htr : translationOf cds' with
    | error e => simp [htr, Bind.bind, Except.bind] at hg
    | ok s =>
      simp only [htr, Bind.bind, Except.bind, pure, Except.pure, Except.ok.injEq] at hg
      rw [← hg]

/-- Witness for `gene_id_fallback_chain` at a concrete feature with no
identifier qualifiers: the chain aborts with `exit(1)` on that feature. -/
theorem gene_id_fallback_chain_witness :
    geneIdOfFeature
      { type := "CDS", qualifiers := [("translation", ["MKT"])],
        locStart := 0, locEnd := 9 } =
      .error (.exitOne { type := "CDS", qualifiers := [("translation", ["MKT"])],
                         locStart := 0, locEnd := 9 }) :=
  (gene_id_fallback_chain _).2.2.2.1 (by rfl) (by rfl) (by rfl)

/-- C10: a coding feature with no `translation` qualifier makes either
normalizer raise an uncaught translation `KeyError`: unconditionally in
the GECCO normalizer, and in the antiSMASH normalizer for every feature
that passes the identifier fallback chain; and even a feature that fails
the chain still makes the antiSMASH normalizer abort with some error, so
the run terminates in every case. -/
theorem missing_translation_fatal (cds : Feature)
    (h : cds.qualifiers.lookup "translation" = none) :
    (∀ rec, recordGene rec cds = .error (.keyError "translation")) ∧
    (∀ rec id_, geneIdOfFeature cds = .ok id_ →
      regionGene rec cds = .error (.keyError "translation")) ∧
    (∀ rec, ∃ e, regionGene rec cds = .error e) := by
  have htr : translationOf cds = .error (.keyError "translation") := by
    simp [translationOf, h]
  refine ⟨?_, ?_, ?_⟩
  · intro rec
    simp [recordGene, htr, Bind.bind, Except.bind]
  · intro rec id_ hid
    simp [regionGene, hid, htr, Bind.bind, Except.bind]
  · intro rec
    cases hid : geneIdOfFeature cds with
    | error e => exact ⟨e, by simp [regionGene, hid, Bind.bind, Except.bind]⟩
    | ok i => exact ⟨.keyError "translation",
        by simp [regionGene, hid, htr, Bind.bind, Except.bind]⟩

/-- Witness for `missing_translation_fatal` at a concrete feature that has
a `locus_tag` but no `translation` qualifier. -/
theorem missing_translation_fatal_witness :
    recordGene { name := "r", features := [] }
      { type := "CDS", qualifiers := [("locus_tag", ["g1"])],
        locStart := 3, locEnd := 7 } =
      .error (.keyError "translation") :=
  (missing_translation_fatal _ (by rfl)).1 _

theorem region_to_cluster_id {rec : Record} {b : String} {c : Cluster}
    (h : region_to_cluster rec b = .ok c) : c.id = b := by
  unfold region_to_cluster at h
  cases hm : exceptMap (regionGene rec) (cdsFeatures rec) with
  | error e => simp [hm, Bind.bind, Except.bind] at h
  | ok gs =>
    simp only [hm, Bind.bind, Except.bind, pure, Except.pure, Except.ok.injEq] at h
    rw [← h]

theorem ingestAntismash_ok_elim {reps : List String} {rs : List Record}
    {cls : List Cluster} (h : ingestAntismash reps rs = .ok cls) :
    (∀ c ∈ cls, ∃ r ∈ rs, c.id = canon r.name ∧ canon r.name ∈ reps) ∧
    (∀ r ∈ rs, canon r.name ∈ reps → ∃ c ∈ cls, c.id = canon r.name) := by
  induction rs generalizing cls with
  | nil =>
    simp only [ingestAntismash, Except.ok.injEq] at h
    subst h; simp
  | cons r rs ih =>
    by_cases hmem : canon r.name ∈ reps
    · rw [ingestAntismash, if_pos hmem] at h
      cases hrc : region_to_cluster r (canon r.name) with
      | error e => rw [hrc] at h; simp [Bind.bind, Except.bind] at h
      | ok c0 =>
        rw [hrc] at h
        cases htl : ingestAntismash reps rs with
        | error e => rw [htl] at h; simp [Bind.bind, Except.bind] at h
        | ok cs0 =>
          rw [htl] at h
          simp only [Bind.bind, Except.bind, pure, Except.pure, Except.ok.injEq] at h
          subst h
          obtain ⟨ih1, ih2⟩ := ih htl
          constructor
          · intro c hc
            rcases List.mem_cons.mp hc with hc | hc
            · exact ⟨r, List.mem_cons_self _ _, by rw [hc]; exact region_to_cluster_id hrc, hmem⟩
            · obtain ⟨r', hr', hid, hrep⟩ := ih1 c hc
              exact ⟨r', List.mem_cons_of_mem _ hr', hid, hrep⟩
          · intro r' hr' hrep
            rcases List.mem_cons.mp hr' with hr' | hr'
            · subst hr'
              exact ⟨c0, List.mem_cons_self _ _, region_to_cluster_id hrc⟩
            · obtain ⟨c, hc, hid⟩ := ih2 r' hr' hrep
              exact ⟨c, List.mem_cons_of_mem _ hc, hid⟩
    · rw [ingestAntismash, if_neg hmem] at h
      obtain ⟨ih1, ih2⟩ := ih h
      constructor
      · intro c hc
        obtain ⟨r', hr', hid, hrep⟩ := ih1 c hc
        exact ⟨r', List.mem_cons_of_mem _ hr', hid, hrep⟩
      · intro r' hr' hrep
        rcases List.mem_cons.mp hr' with hr' | hr'
        · subst hr'; exact absurd hrep hmem
        · exact ih2 r' hr' hrep

theorem record_to_cluster_id {rec : Record} {c : Cluster}
    (h : record_to_cluster rec = .ok c) : c.id = rec.name := by
  unfold record_to_cluster at h
  cases hm : exceptMap (recordGene rec) (cdsFeatures rec) with
  | error e => simp [hm, Bind.bind, Except.bind] at h
  | ok gs =>
    simp only [hm, Bind.bind, Except.bind, pure, Except.pure, Except.ok.injEq] at h
    rw [← h]

theorem ingestGecco_ok_elim {reps : List String} {rs : List Record}
    {cls : List Cluster} (h : ingestGecco reps rs = .ok cls) :
    (∀ c ∈ cls, ∃ r ∈ rs, c.id = r.name ∧ r.name ∈ reps) ∧
    (∀ r ∈ rs, r.name ∈ reps → ∃ c ∈ cls, c.id = r.name) := by
  induction rs generalizing cls with
  | nil =>
    simp only [ingestGecco, Except.ok.injEq] at h
    subst h; simp
  | cons r rs ih =>
    by_cases hmem : r.name ∈ reps
    · rw [ingestGecco, if_pos hmem] at h
      cases hrc : record_to_cluster r with
      | error e => rw [hrc] at h; simp [Bind.bind, Except.bind] at h
      | ok c0 =>
        rw [hrc] at h
        cases htl : ingestGecco reps rs with
        | error e => rw [htl] at h; simp [Bind.bind, Except.bind] at h
        | ok cs0 =>
          rw [htl] at h
          simp only [Bind.bind, Except.bind, pure, Except.pure, Except.ok.injEq] at h
          subst h
          obtain ⟨ih1, ih2⟩ := ih htl
          constructor
          · intro c hc
            rcases List.mem_cons.mp hc with hc | hc
            · exact ⟨r, List.mem_cons_self _ _, by rw [hc]; exact record_to_cluster_id hrc, hmem⟩
            · obtain ⟨r', hr', hid, hrep⟩ := ih1 c hc
              exact ⟨r', List.mem_cons_of_mem _ hr', hid, hrep⟩
          · intro r' hr' hrep
            rcases List.mem_cons.mp hr' with hr' | hr'
            · subst hr'
              exact ⟨c0, List.mem_cons_self _ _, record_to_cluster_id hrc⟩
            · obtain ⟨c, hc, hid⟩ := ih2 r' hr' hrep
              exact ⟨c, List.mem_cons_of_mem _ hc, hid⟩
    · rw [ingestGecco, if_neg hmem] at h
      obtain ⟨ih1, ih2⟩ := ih h
      constructor
      · intro c hc
        obtain ⟨r', hr', hid, hrep⟩ := ih1 c hc
        exact ⟨r', List.mem_cons_of_mem _ hr', hid, hrep⟩
      · intro r' hr' hrep
        rcases List.mem_cons.mp hr' with hr' | hr'
        · subst hr'; exact absurd hrep hmem
        · exact ih2 r' hr' hrep

/-- C3, counterexample: a GECCO record named `"BGC1.2"` whose canonical
identifier `"BGC1"` is in the representative set is nonetheless dropped,
because the GECCO ingestion loop tests the raw record name against the
representative set, not the canonical identifier. -/
theorem gecco_filtering_misses_canonical :
    ingestGecco ["BGC1"] [{ name := "BGC1.2", features := [] }] = .ok [] ∧
    canon "BGC1.2" ∈ ["BGC1"] := by
  constructor
  · rfl
  · decide

/-- C3 (amended): on a successful run, a cluster for an antiSMASH record
appears in the ingested antiSMASH list iff the record's canonical
identifier is a representative, while a cluster for a GECCO record appears
in the ingested GECCO list iff the record's raw name is a representative;
the merged collection is exactly the concatenation of the two lists. -/
theorem ingestion_filtering (reps : List String) (asRecs geRecs : List Record)
    (ascs gecs : List Cluster)
    (ha : ingestAntismash reps asRecs = .ok ascs)
    (hg : ingestGecco reps geRecs = .ok gecs) :
    (∀ r ∈ asRecs, (∃ c ∈ ascs, c.id = canon r.name) ↔ canon r.name ∈ reps) ∧
    (∀ r ∈ geRecs, (∃ c ∈ gecs, c.id = r.name) ↔ r.name ∈ reps) ∧
    (∀ c, c ∈ mergeClusters gecs ascs ↔ c ∈ gecs ∨ c ∈ ascs) := by
  obtain ⟨ha1, ha2⟩ := ingestAntismash_ok_elim ha
  obtain ⟨hg1, hg2⟩ := ingestGecco_ok_elim hg
  refine ⟨?_, ?_, ?_⟩
  · intro r hr
    constructor
    · rintro ⟨c, hc, hid⟩
      obtain ⟨r', _, hid', hrep'⟩ := ha1 c hc
      rw [hid] at hid'; rw [hid']; exact hrep'
    · intro hrep
      exact ha2 r hr hrep
  · intro r hr
    constructor
    · rintro ⟨c, hc, hid⟩
      obtain ⟨r', _, hid', hrep'⟩ := hg1 c hc
      rw [hid] at hid'; rw [hid']; exact hrep'
    · intro hrep
      exact hg2 r hr hrep
  · intro c
    simp [mergeClusters]

/-- Witness for `ingestion_filtering` on a one-record antiSMASH input whose
canonical identifier is the representative `"A"`. -/
theorem ingestion_filtering_witness :
    (∃ c ∈ [Cluster.mk "A" []], c.id = canon "A") ↔ canon "A" ∈ ["A"] :=
  (ingestion_filtering ["A"] [{ name := "A", features := [] }] [] [Cluster.mk "A" []] []
      (by rfl) (by rfl)).1 { name := "A", features := [] } (by simp)

/-- C8: the post-filter domain list of the gene at any position of the
filtered gene list is exactly the order-preserving filter of its pre-filter
domain list by `pvalue < 1e-5`: it is a sublist (subsequence) of the
original, and a domain is retained iff it occurred before and its p-value
is strictly below the threshold. -/
theorem significance_filtering (gs : List Gene) (i : Nat) (h : i < gs.length) :
    (filterGenes gs)[i]? = some (filterGene gs[i]) ∧
    (filterGene gs[i]).protein.domains =
      gs[i].protein.domains.filter (fun d => decide (d.pvalue < pvalueThreshold)) ∧
    (filterGene gs[i]).protein.domains.Sublist gs[i].protein.domains ∧
    (∀ d, d ∈ (filterGene gs[i]).protein.domains ↔
      d ∈ gs[i].protein.domains ∧ d.pvalue < pvalueThreshold) := by
  refine ⟨?_, rfl, List.filter_sublist _, ?_⟩
  · simp [filterGenes, List.getElem?_eq_getElem, h]
  · intro d
    simp [filterGene, with_protein, with_domains, List.mem_filter]

/-- Witness for `significance_filtering` on a concrete two-domain gene:
the domain with p-value `0` survives, the one with p-value `1` is
removed. -/
theorem significance_filtering_witness :
    (filterGene { sourceName := "A", start := 0, stop := 1,
                  protein := { id := "p", seq := "M",
                               domains := [{ name := "PF1", pvalue := 0 },
                                           { name := "PF2", pvalue := 1 }] },
                  strand := .Coding }).protein.domains =
      [{ name := "PF1", pvalue := 0 }] :=
  ((significance_filtering
      [{ sourceName := "A", start := 0, stop := 1,
         protein := { id := "p", seq := "M",
                      domains := [{ name := "PF1", pvalue := 0 },
                                  { name := "PF2", pvalue := 1 }] },
         strand := .Coding }] 0 (by decide)).2.1).trans (by
    have h0 : (0 : ℚ) < pvalueThreshold := by norm_num [pvalueThreshold]
    have h1 : ¬ (1 : ℚ) < pvalueThreshold := by norm_num [pvalueThreshold]
    simp [List.filter, h0, h1])

theorem groupRuns_spec {α : Type} (key : α → String) (l : List α)
    (hs : l.Pairwise (fun a b => key a ≤ key b)) :
    ((groupRuns key l).flatMap (fun p => p.2) = l) ∧
    (∀ p ∈ groupRuns key l, p.2 ≠ [] ∧ ∀ a ∈ p.2, key a = p.1) ∧
    ((groupRuns key l).map (fun p => p.1)).Pairwise (· < ·) ∧
    (∀ p ∈ groupRuns key l, p.2 = l.filter (fun a => decide (key a = p.1))) := by
  induction l with
  | nil => simp [groupRuns]
  | cons a as ih =>
    obtain ⟨ha, has⟩ := List.pairwise_cons.mp hs
    obtain ⟨ihA, ihB, ihC, ihD⟩ := ih has
    cases hgr : groupRuns key as with
    | nil =>
      have hasnil : as = [] := by rw [hgr] at ihA; simpa using ihA.symm
      subst hasnil
      refine ⟨by simp [groupRuns], ?_, by simp [groupRuns], ?_⟩
      · intro p hp
        simp only [groupRuns, List.mem_singleton] at hp
        subst hp
        exact ⟨by simp, by simp⟩
      · intro p hp
        simp only [groupRuns, List.mem_singleton] at hp
        subst hp
        simp [List.filter]
    | cons q rest =>
      obtain ⟨k, run⟩ := q
      rw [hgr] at ihA ihB ihC ihD
      have hrun_ne : run ≠ [] := (ihB (k, run) (List.mem_cons_self _ _)).1
      have hrun_key : ∀ x ∈ run, key x = k := (ihB (k, run) (List.mem_cons_self _ _)).2
      have hak : key a ≤ k := by
        obtain ⟨x, hx⟩ := List.exists_mem_of_ne_nil run hrun_ne
        have hxas : x ∈ as := by
          rw [← ihA]
          exact List.mem_flatMap.mpr ⟨(k, run), List.mem_cons_self _ _, hx⟩
        calc key a ≤ key x := ha x hxas
          _ = k := hrun_key x hx
      have ihC' : List.Pairwise (· < ·) (k :: rest.map (fun p => p.1)) := by
        rw [List.map_cons] at ihC
        exact ihC
      have hrest_keys : ∀ p ∈ rest, k < p.1 := by
        intro p hp
        exact (List.pairwise_cons.mp ihC').1 p.1 (List.mem_map.mpr ⟨p, hp, rfl⟩)
      have hmem_as_key : ∀ b ∈ as, k ≤ key b := by
        intro b hb
        rw [← ihA] at hb
        obtain ⟨p, hp, hbp⟩ := List.mem_flatMap.mp hb
        have hkb : key b = p.1 := (ihB p hp).2 b hbp
        rcases List.mem_cons.mp hp with hp | hp
        · rw [hkb, hp]
        · rw [hkb]; exact le_of_lt (hrest_keys p hp)
      by_cases hkey : key a = k
      · have hred : groupRuns key (a :: as) = (key a, a :: run) :: rest := by
          rw [groupRuns, hgr]
          simp [hkey]
        refine ⟨?_, ?_, ?_, ?_⟩
        · rw [hred]
          simp only [List.flatMap_cons]
          simp only [List.flatMap_cons] at ihA
          simp [ihA]
        · rw [hred]
          intro p hp
          rcases List.mem_cons.mp hp with hp | hp
          · subst hp
            refine ⟨by simp, ?_⟩
            intro x hx
            rcases List.mem_cons.mp hx with hx | hx
            · rw [hx]
            · rw [hrun_key x hx, hkey]
          · exact ihB p (List.mem_cons_of_mem _ hp)
        · rw [hred]
          simpa [hkey] using ihC
        · rw [hred]
          intro p hp
          rcases List.mem_cons.mp hp with hp | hp
          · subst hp
            have hfa : (a :: as).filter (fun x => decide (key x = key a)) =
                a :: as.filter (fun x => decide (key x = key a)) := by
              simp [List.filter]
            rw [hfa]
            have := ihD (k, run) (List.mem_cons_self _ _)
            simp only at this
            have hsame : as.filter (fun x => decide (key x = key a)) =
                as.filter (fun x => decide (key x = k)) := by rw [hkey]
            rw [hsame, ← this]
          · have hne : ¬ key a = p.1 := by
              have := hrest_keys p hp
              rw [hkey]
              exact ne_of_lt this
            have hfa : (a :: as).filter (fun x => decide (key x = p.1)) =
                as.filter (fun x => decide (key x = p.1)) := by
              simp [List.filter, hne]
            rw [hfa]
            exact ihD p (List.mem_cons_of_mem _ hp)
      · have hlt : key a < k := lt_of_le_of_ne hak hkey
        have hred : groupRuns key (a :: as) = (key a, [a]) :: (k, run) :: rest := by
          rw [groupRuns, hgr]
          simp [hkey]
        refine ⟨?_, ?_, ?_, ?_⟩
        · rw [hred]
          simp only [List.flatMap_cons]
          simp only [List.flatMap_cons] at ihA
          simp [ihA]
        · rw [hred]
          intro p hp
          rcases List.mem_cons.mp hp with hp | hp
          · subst hp
            exact ⟨by simp, by simp⟩
          · exact ihB p hp
        · rw [hred]
          simp only [List.map_cons]
          refine List.pairwise_cons.mpr ⟨?_, by simpa using ihC⟩
          intro k' hk'
          simp only [List.map_cons, List.mem_cons] at hk'
          rcases hk' with hk' | hk'
          · rw [hk']; exact hlt
          · obtain ⟨p, hp, hpk⟩ := List.mem_map.mp hk'
            rw [← hpk]
            exact lt_trans hlt (hrest_keys p hp)
        · rw [hred]
          intro p hp
          rcases List.mem_cons.mp hp with hp | hp
          · subst hp
            have hnil : as.filter (fun x => decide (key x = key a)) = [] := by
              rw [List.filter_eq_nil_iff]
              intro b hb
              have := hmem_as_key b hb
              have hne : ¬ key b = key a := by
                intro hEq
                rw [hEq] at this
                exact absurd this (not_le_of_lt hlt)
              simp [hne]
            simp [List.filter, hnil]
          · have hkp : key a < p.1 := by
              rcases List.mem_cons.mp hp with hp' | hp'
              · rw [hp']; exact hlt
              · exact lt_trans hlt (hrest_keys p hp')
            have hne : ¬ key a = p.1 := ne_of_lt hkp
            have hfa : (a :: as).filter (fun x => decide (key x = p.1)) =
                as.filter (fun x => decide (key x = p.1)) := by
              simp [List.filter, hne]
            rw [hfa]
            exact ihD p hp

theorem sortGenesBySource_pairwise (gs : List Gene) :
    (sortGenesBySource gs).Pairwise (fun a b => a.sourceName ≤ b.sourceName) := by
  have h := @List.sorted_mergeSort Gene
    (fun a b : Gene => decide (a.sourceName ≤ b.sourceName))
    (fun a b c hab hbc => by
      simp only [decide_eq_true_eq] at hab hbc ⊢
      exact le_trans hab hbc)
    (fun a b => by
      simp only [Bool.or_eq_true, decide_eq_true_eq]
      exact le_total _ _)
    gs
  exact h.imp (fun hab => by simpa using hab)

theorem sortGenesBySource_perm (gs : List Gene) :
    (sortGenesBySource gs).Perm gs :=
  List.mergeSort_perm gs _

theorem flattenGenes_filter {rs : List (String × List Gene)}
    (hwf : ∀ q ∈ rs, ∀ g ∈ q.2, g.sourceName = q.1)
    (hinj : (rs.map (fun q => canon q.1)).Nodup)
    {p : String × List Gene} (hp : p ∈ rs) :
    (flattenGenes rs).filter (fun g => decide (g.sourceName = p.1)) = p.2 := by
  induction rs with
  | nil => cases hp
  | cons q rest ih =>
    have hq_not : canon q.1 ∉ rest.map (fun q' => canon q'.1) :=
      (List.nodup_cons.mp (by simpa using hinj)).1
    have hnodup_rest : (rest.map (fun q' => canon q'.1)).Nodup :=
      (List.nodup_cons.mp (by simpa using hinj)).2
    have hsplit : flattenGenes (q :: rest) = q.2 ++ flattenGenes rest := by
      simp [flattenGenes]
    rw [hsplit, List.filter_append]
    rcases List.mem_cons.mp hp with hp | hp
    · subst hp
      have h1 : p.2.filter (fun g => decide (g.sourceName = p.1)) = p.2 :=
        List.filter_eq_self.mpr (fun g hg => by
          simp [hwf p (List.mem_cons_self _ _) g hg])
      have h2 : (flattenGenes rest).filter (fun g => decide (g.sourceName = p.1)) = [] := by
        rw [List.filter_eq_nil_iff]
        intro g hg
        obtain ⟨q', hq', hgq'⟩ := List.mem_flatMap.mp hg
        have hname : g.sourceName = q'.1 :=
          hwf q' (List.mem_cons_of_mem _ hq') g hgq'
        have hne : q'.1 ≠ p.1 := by
          intro hEq
          exact hq_not (List.mem_map.mpr ⟨q', hq', by rw [hEq]⟩)
        simp [hname, hne]
      rw [h1, h2, List.append_nil]
    · have h1 : q.2.filter (fun g => decide (g.sourceName = p.1)) = [] := by
        rw [List.filter_eq_nil_iff]
        intro g hg
        have hname : g.sourceName = q.1 := hwf q (List.mem_cons_self _ _) g hg
        have hne : q.1 ≠ p.1 := by
          intro hEq
          exact hq_not (List.mem_map.mpr ⟨p, hp, by rw [hEq]⟩)
        simp [hname, hne]
      rw [h1, List.nil_append]
      exact ih (fun q' hq' => hwf q' (List.mem_cons_of_mem _ hq')) hnodup_rest hp

theorem regroup_nil : regroup [] = [] := by
  have h : sortGenesBySource [] = [] := by
    have := sortGenesBySource_perm []
    exact List.Perm.eq_nil this
  simp [regroup, h, groupRuns]

/-- C4, counterexample: a merged input consisting of one ingested cluster
with record name `"A"` and no genes satisfies the no-collision
precondition, yet regrouping the (empty) flattened gene list produces no
cluster at all: the empty ingestion cluster is not reproduced. -/
theorem regroup_drops_empty_cluster :
    (([("A", ([] : List Gene))].map (fun q => canon q.1)).Nodup) ∧
    regroup (flattenGenes [("A", ([] : List Gene))]) = [] ∧
    ¬ ∃ rc ∈ regroup (flattenGenes [("A", ([] : List Gene))]), rc.id = canon "A" := by
  have hflat : flattenGenes [("A", ([] : List Gene))] = [] := by simp [flattenGenes]
  refine ⟨by simp, by rw [hflat]; exact regroup_nil, ?_⟩
  rintro ⟨rc, hrc, -⟩
  rw [hflat, regroup_nil] at hrc
  cases hrc

/-- C4 (amended): for a merged input in which no two ingested clusters have
record names that collide after canonicalization and every ingested
cluster owns at least one gene, sorting the flattened gene list by source
record name and partitioning it into contiguous runs reproduces exactly
the original cluster membership: every reconstructed cluster is keyed by
the canonical identifier of exactly the record whose genes it contains,
and every (nonempty) ingested cluster reappears with exactly its own
genes.  An ingested cluster with no genes vanishes at regrouping. -/
theorem regroup_roundtrip (rs : List (String × List Gene))
    (hwf : ∀ q ∈ rs, ∀ g ∈ q.2, g.sourceName = q.1)
    (hinj : (rs.map (fun q => canon q.1)).Nodup)
    (hne : ∀ q ∈ rs, q.2 ≠ []) :
    (∀ rc ∈ regroup (flattenGenes rs),
      ∃ q ∈ rs, rc.id = canon q.1 ∧ rc.genes.Perm q.2) ∧
    (∀ q ∈ rs, ∃ rc ∈ regroup (flattenGenes rs),
      rc.id = canon q.1 ∧ rc.genes.Perm q.2) := by
  obtain ⟨hA, hB, hC, hD⟩ := groupRuns_spec (fun g => g.sourceName)
    (sortGenesBySource (flattenGenes rs)) (sortGenesBySource_pairwise _)
  have hperm := sortGenesBySource_perm (flattenGenes rs)
  constructor
  · intro rc hrc
    obtain ⟨p, hp, hpc⟩ := List.mem_map.mp hrc
    obtain ⟨hpne, hpkey⟩ := hB p hp
    obtain ⟨g0, hg0⟩ := List.exists_mem_of_ne_nil _ hpne
    have hg0s : g0 ∈ sortGenesBySource (flattenGenes rs) := by
      rw [← hA]
      exact List.mem_flatMap.mpr ⟨p, hp, hg0⟩
    have hg0f : g0 ∈ flattenGenes rs := hperm.mem_iff.mp hg0s
    obtain ⟨q, hq, hg0q⟩ := List.mem_flatMap.mp hg0f
    have hqname : g0.sourceName = q.1 := hwf q hq g0 hg0q
    have hkeyq : p.1 = q.1 := by rw [← hpkey g0 hg0, hqname]
    refine ⟨q, hq, ?_, ?_⟩
    · rw [← hpc, hkeyq]
    · rw [← hpc]
      show p.2.Perm q.2
      rw [hD p hp, hkeyq]
      calc ((sortGenesBySource (flattenGenes rs)).filter
              (fun g => decide (g.sourceName = q.1))).Perm
            ((flattenGenes rs).filter (fun g => decide (g.sourceName = q.1))) :=
        hperm.filter _
        _ = q.2 := flattenGenes_filter hwf hinj hq
  · intro q hq
    obtain ⟨g0, hg0⟩ := List.exists_mem_of_ne_nil _ (hne q hq)
    have hg0f : g0 ∈ flattenGenes rs := List.mem_flatMap.mpr ⟨q, hq, hg0⟩
    have hg0s : g0 ∈ sortGenesBySource (flattenGenes rs) := hperm.mem_iff.mpr hg0f
    rw [← hA] at hg0s
    obtain ⟨p, hp, hg0p⟩ := List.mem_flatMap.mp hg0s
    have hkeyq : p.1 = q.1 := by
      rw [← (hB p hp).2 g0 hg0p, hwf q hq g0 hg0]
    refine ⟨{ id := canon p.1, genes := p.2 }, List.mem_map.mpr ⟨p, hp, rfl⟩, ?_, ?_⟩
    · simp [hkeyq]
    · show p.2.Perm q.2
      rw [hD p hp, hkeyq]
      calc ((sortGenesBySource (flattenGenes rs)).filter
              (fun g => decide (g.sourceName = q.1))).Perm
            ((flattenGenes rs).filter (fun g => decide (g.sourceName = q.1))) :=
        hperm.filter _
        _ = q.2 := flattenGenes_filter hwf hinj hq

/-- Witness for `regroup_roundtrip` at a one-record, one-gene input. -/
theorem regroup_roundtrip_witness :
    ∃ rc ∈ regroup (flattenGenes
      [("A", [{ sourceName := "A", start := 0, stop := 1,
                protein := { id := "p", seq := "M", domains := [] },
                strand := .Coding }])]),
      rc.id = canon "A" ∧
      rc.genes.Perm [{ sourceName := "A", start := 0, stop := 1,
                       protein := { id := "p", seq := "M", domains := [] },
                       strand := Strand.Coding }] :=
  (regroup_roundtrip
    [("A", [{ sourceName := "A", start := 0, stop := 1,
              protein := { id := "p", seq := "M", domains := [] },
              strand := .Coding }])]
    (by decide) (by decide) (by decide)).2 _ (List.mem_singleton.mpr rfl)

/-- C5: the final cluster list is sorted by the label table's group
identifier for each cluster's identifier, and the run aborts with a
`KeyError` naming an offending cluster identifier whenever some final
cluster's identifier is absent from the label table. -/
theorem sort_by_gcf_spec (idx : List (String × String)) (cs : List Cluster) :
    ((∀ c ∈ cs, (idx.lookup c.id).isSome) →
      ∃ cs', sortClustersByGcf idx cs = .ok cs' ∧ cs'.Perm cs ∧
        cs'.Pairwise (fun a b => gcfKey idx a ≤ gcfKey idx b)) ∧
    ((∃ c ∈ cs, idx.lookup c.id = none) →
      ∃ c ∈ cs, idx.lookup c.id = none ∧
        sortClustersByGcf idx cs = .error (.keyError c.id)) := by
  constructor
  · intro hall
    have hfind : cs.find? (fun c => (idx.lookup c.id).isNone) = none := by
      rw [List.find?_eq_none]
      intro c hc
      simp only [Option.isNone_iff_eq_none]
      exact Option.isSome_iff_ne_none.mp (hall c hc)
    refine ⟨cs.mergeSort (fun a b => decide (gcfKey idx a ≤ gcfKey idx b)), ?_, ?_, ?_⟩
    · simp [sortClustersByGcf, hfind]
    · exact List.mergeSort_perm cs _
    · have h := @List.sorted_mergeSort Cluster
        (fun a b : Cluster => decide (gcfKey idx a ≤ gcfKey idx b))
        (fun a b c hab hbc => by
          simp only [decide_eq_true_eq] at hab hbc ⊢
          exact le_trans hab hbc)
        (fun a b => by
          simp only [Bool.or_eq_true, decide_eq_true_eq]
          exact le_total _ _)
        cs
      exact h.imp (fun hab => by simpa using hab)
  · rintro ⟨c, hc, hnone⟩
    cases hfind : cs.find? (fun c => (idx.lookup c.id).isNone) with
    | none =>
      exfalso
      have := List.find?_eq_none.mp hfind c hc
      simp [hnone] at this
    | some c0 =>
      refine ⟨c0, List.mem_of_find?_eq_some hfind, ?_, ?_⟩
      · have := List.find?_some hfind
        simpa [Option.isNone_iff_eq_none] using this
      · simp [sortClustersByGcf, hfind]

/-- Witness for `sort_by_gcf_spec` on a two-cluster list whose identifiers
are both present in the label table. -/
theorem sort_by_gcf_spec_witness :
    ∃ cs', sortClustersByGcf [("A", "G2"), ("B", "G1")]
        [Cluster.mk "A" [], Cluster.mk "B" []] = .ok cs' ∧
      cs'.Perm [Cluster.mk "A" [], Cluster.mk "B" []] ∧
      cs'.Pairwise (fun a b =>
        gcfKey [("A", "G2"), ("B", "G1")] a ≤ gcfKey [("A", "G2"), ("B", "G1")] b) :=
  (sort_by_gcf_spec [("A", "G2"), ("B", "G1")]
    [Cluster.mk "A" [], Cluster.mk "B" []]).1 (by decide)

/-- C2, counterexample: a run that fails while assembling the in-memory
composition matrix (after the two text files were written) is a failed run
that leaves `labels.tsv` and `domains.tsv` in the output directory:
partial output exists, and those two artifacts were written before the
matrix was assembled. -/
theorem partial_outputs_on_failed_run :
    (runFinalize (fun s => decide (s = .buildCompMatrix))).2 = false ∧
    (runFinalize (fun s => decide (s = .buildCompMatrix))).1 =
      ["labels.tsv", "domains.tsv"] := by
  decide

/-- C2 (amended): only `compositions.npz` is written after the full
in-memory matrix is assembled; `labels.tsv` and `domains.tsv` are written
before matrix assembly.  Consequently a failed run never contains
`compositions.npz` (if the sparse matrix file exists, the run completed
and all three artifacts exist), but a failure at matrix assembly leaves
the two earlier text files behind, with no cleanup. -/
theorem finalize_write_order (f : FinalizeStep → Bool) :
    ("compositions.npz" ∈ (runFinalize f).1 →
      (runFinalize f).1 = ["labels.tsv", "domains.tsv", "compositions.npz"] ∧
      (runFinalize f).2 = true) ∧
    ((runFinalize f).2 = false → "compositions.npz" ∉ (runFinalize f).1) ∧
    (f .makeOutputDir = false → f .writeLabels = false → f .writeDomains = false →
      f .buildCompMatrix = true →
      (runFinalize f).1 = ["labels.tsv", "domains.tsv"] ∧
      (runFinalize f).2 = false) := by
  cases h0 : f .makeOutputDir <;> cases h1 : f .writeLabels <;>
    cases h2 : f .writeDomains <;> cases h3 : f .buildCompMatrix <;>
    cases h4 : f .saveNpz <;>
    simp [runFinalize, runFinalizeAux, finalizeSteps, filesWrittenBy, h0, h1, h2, h3, h4]

/-- Witness for `finalize_write_order`: a run failing at the sparse-matrix
save step is a failed run without `compositions.npz`. -/
theorem finalize_write_order_witness :
    "compositions.npz" ∉ (runFinalize (fun s => decide (s = .saveNpz))).1 :=
  (finalize_write_order _).2.1 (by decide)

theorem tabSplit_no_tab {l : List Char} (h : '\t' ∉ l) : tabSplit l = [l] := by
  induction l with
  | nil => rfl
  | cons c rest ih =>
    have hc : ¬ c = '\t' := fun hEq => h (by rw [hEq]; exact List.mem_cons_self _ _)
    have hrest : '\t' ∉ rest := fun hmem => h (List.mem_cons_of_mem _ hmem)
    rw [tabSplit, ih hrest]
    simp [hc]

theorem tabSplit_two_fields {a b : List Char} (ha : '\t' ∉ a) (hb : '\t' ∉ b) :
    tabSplit (a ++ '\t' :: b) = [a, b] := by
  induction a with
  | nil =>
    rw [List.nil_append, tabSplit, tabSplit_no_tab hb]
    simp
  | cons c a' ih =>
    have hc : ¬ c = '\t' := fun hEq => ha (by rw [hEq]; exact List.mem_cons_self _ _)
    have ha' : '\t' ∉ a' := fun hmem => ha (List.mem_cons_of_mem _ hmem)
    rw [List.cons_append, tabSplit, ih ha']
    simp [hc]

/-- C6: for every row index `i`, line `i` of `labels.tsv` is the record of
the cluster at position `i` of the final list, and row `i` of the
composition matrix is that same cluster's composition vector; each record
is the cluster identifier, a tab, the group identifier, a newline, and
(when neither field contains a tab) the line splits into exactly those two
tab-separated fields. -/
theorem labels_matrix_alignment (idx : List (String × String)) (vocab : List String)
    (cs : List Cluster) (i : Nat) (h : i < cs.length) :
    (labelsLines idx cs)[i]? = some (labelsEntry idx cs[i]) ∧
    (compMatrix vocab cs)[i]? = some (domain_composition cs[i] vocab) ∧
    (labelsEntry idx cs[i]).data =
      cs[i].id.data ++ '\t' :: ((idx.lookup cs[i].id).getD "").data ++ ['\n'] ∧
    ('\t' ∉ cs[i].id.data → '\t' ∉ ((idx.lookup cs[i].id).getD "").data →
      tabSplit (labelsEntry idx cs[i]).data.dropLast =
        [cs[i].id.data, ((idx.lookup cs[i].id).getD "").data]) := by
  have hdata : (labelsEntry idx cs[i]).data =
      cs[i].id.data ++ '\t' :: ((idx.lookup cs[i].id).getD "").data ++ ['\n'] := by
    simp [labelsEntry, String.data_append]
  refine ⟨?_, ?_, hdata, ?_⟩
  · simp [labelsLines, List.getElem?_eq_getElem, h]
  · simp [compMatrix, List.getElem?_eq_getElem, h]
  · intro hta htb
    rw [hdata]
    have hsplit : cs[i].id.data ++ '\t' :: ((idx.lookup cs[i].id).getD "").data ++ ['\n'] =
        (cs[i].id.data ++ '\t' :: ((idx.lookup cs[i].id).getD "").data) ++ ['\n'] := by
      simp
    rw [hsplit, List.dropLast_concat]
    exact tabSplit_two_fields hta htb

/-- Witness for `labels_matrix_alignment` at a concrete one-cluster list. -/
theorem labels_matrix_alignment_witness :
    tabSplit (labelsEntry [("A", "G1")] (Cluster.mk "A" [])).data.dropLast =
      [("A" : String).data, ("G1" : String).data] :=
  (labels_matrix_alignment [("A", "G1")] [] [Cluster.mk "A" []] 0
    (by decide)).2.2.2 (by decide) (by decide)

/-- C7: a name is in the vocabulary iff it is the name of some domain of
some gene of some final cluster; the vocabulary has no duplicates (so each
such name yields exactly one `domains.tsv` line) and is sorted; and a name
in the vocabulary computed after significance filtering always comes from
a pre-filter domain whose p-value beats the threshold — a domain filtered
out of every gene can never enter the vocabulary. -/
theorem vocabulary_spec (cs : List Cluster) :
    (∀ n, n ∈ all_possible cs ↔
      ∃ c ∈ cs, ∃ g ∈ c.genes, ∃ d ∈ g.protein.domains, d.name = n) ∧
    (all_possible cs).Nodup ∧
    (all_possible cs).Pairwise (fun a b : String => a ≤ b) ∧
    domainsLines cs = (all_possible cs).map (fun d => d ++ "\n") ∧
    (∀ gs n, n ∈ all_possible (regroup (filterGenes gs)) →
      ∃ g ∈ gs, ∃ d ∈ g.protein.domains, d.name = n ∧ d.pvalue < pvalueThreshold) := by
  have hmem : ∀ cs' : List Cluster, ∀ n, n ∈ all_possible cs' ↔
      ∃ c ∈ cs', ∃ g ∈ c.genes, ∃ d ∈ g.protein.domains, d.name = n := by
    intro cs' n
    rw [all_possible]
    rw [(List.mergeSort_perm (domainNames cs').dedup _).mem_iff]
    rw [List.mem_dedup]
    simp [domainNames, List.mem_flatMap, eq_comm]
  refine ⟨hmem cs, ?_, ?_, rfl, ?_⟩
  · exact (List.mergeSort_perm (domainNames cs).dedup _).symm.nodup
      (List.nodup_dedup _)
  · have h := @List.sorted_mergeSort String
      (fun a b : String => decide (a ≤ b))
      (fun a b c hab hbc => by
        simp only [decide_eq_true_eq] at hab hbc ⊢
        exact le_trans hab hbc)
      (fun a b => by
        simp only [Bool.or_eq_true, decide_eq_true_eq]
        exact le_total _ _)
      (domainNames cs).dedup
    exact h.imp (fun hab => by simpa using hab)
  · intro gs n hn
    obtain ⟨c, hc, g', hg', d, hd, hdn⟩ := (hmem _ n).mp hn
    obtain ⟨hA, hB, -, -⟩ := groupRuns_spec (fun g => g.sourceName)
      (sortGenesBySource (filterGenes gs)) (sortGenesBySource_pairwise _)
    obtain ⟨p, hp, hpc⟩ := List.mem_map.mp hc
    have hg'sorted : g' ∈ sortGenesBySource (filterGenes gs) := by
      rw [← hA]
      refine List.mem_flatMap.mpr ⟨p, hp, ?_⟩
      have : c.genes = p.2 := by rw [← hpc]
      rw [← this]
      exact hg'
    have hg'f : g' ∈ filterGenes gs :=
      (sortGenesBySource_perm (filterGenes gs)).mem_iff.mp hg'sorted
    obtain ⟨g, hg, hgf⟩ := List.mem_map.mp hg'f
    have hd' : d ∈ (filterGene g).protein.domains := by rw [hgf]; exact hd
    have : d ∈ g.protein.domains ∧ d.pvalue < pvalueThreshold := by
      simpa [filterGene, with_protein, with_domains, List.mem_filter] using hd'
    exact ⟨g, hg, d, this.1, hdn, this.2⟩

theorem sortGenesBySource_singleton (g : Gene) : sortGenesBySource [g] = [g] :=
  List.perm_singleton.mp (sortGenesBySource_perm [g])

theorem regroup_singleton (g : Gene) :
    regroup [g] = [{ id := canon g.sourceName, genes := [g] }] := by
  rw [regroup, sortGenesBySource_singleton]
  rfl

/-- Witness for `vocabulary_spec`: a domain that survives filtering in a
concrete one-gene input is traced back to its pre-filter gene. -/
theorem vocabulary_spec_witness :
    ∃ g ∈ [geneA],
      ∃ d ∈ g.protein.domains, d.name = "PF1" ∧ d.pvalue < pvalueThreshold :=
  (vocabulary_spec []).2.2.2.2 [geneA] "PF1"
    (by
      refine ((vocabulary_spec _).1 "PF1").mpr ?_
      rw [show filterGenes [geneA] = [filterGene geneA] from rfl]
      rw [regroup_singleton]
      refine ⟨_, List.mem_singleton.mpr rfl, filterGene geneA,
        List.mem_singleton.mpr rfl, ?_⟩
      refine ⟨{ name := "PF1", pvalue := 0 }, ?_, rfl⟩
      have hunfold : (filterGene geneA).protein.domains =
          List.filter (fun d => decide (d.pvalue < pvalueThreshold))
            [({ name := "PF1", pvalue := 0 } : Domain)] := rfl
      rw [hunfold, List.mem_filter]
      refine ⟨List.mem_singleton.mpr rfl, ?_⟩
      simp only [decide_eq_true_eq]
      show (0 : ℚ) < pvalueThreshold
      norm_num [pvalueThreshold])

end Extract
